import Mathlib

/-!
Verification of the operational-transformation core of the repository:
`ObjectOperation` (structural ops Create/Delete/Update/Set/NOP on a
path-addressed document) and the `StubHub` commit protocol.

The leaf operation algebras (`TextOperation`, `ArrayOperation`) are not part
of the sources; they are abstracted as a `LeafOT` structure, and the
assumptions the specification makes about them (TP1 convergence,
invertibility, NOP behaviour) appear as explicit hypotheses of the theorems.

The document adapter (`DataObject`) is likewise not part of the sources.
Modelled from the spec: the document is a flat path-addressed store with
`get`, `set` and strict `delete`; path equality is segment-wise.
-/

namespace Substance

/-- A path: an ordered sequence of string segments. -/
abbrev Path : Type := List String

/-- Modelled from the spec: a document as a flat association of paths to
values (`DataObject` is not among the sources). -/
abbrev Doc (V : Type) : Type := List (Path × V)

/-- `adapter.get(path)`: the value stored at a path, `none` when absent. -/
def docGet {V : Type} : Doc V → Path → Option V
  | [], _ => none
  | (q, v) :: t, p => if q = p then some v else docGet t p

/-- Removal of a path from the document (used for `delete` and for setting
the JavaScript value `undefined`, which is indistinguishable from absence
through `get`). -/
def docErase {V : Type} : Doc V → Path → Doc V
  | [], _ => []
  | e :: t, p => if e.1 = p then docErase t p else e :: docErase t p

/-- `adapter.set(path, v)` for a present value. -/
def docSet {V : Type} (d : Doc V) (p : Path) (v : V) : Doc V :=
  (p, v) :: docErase d p

/-- Writing an optional value: a present value is stored, the JavaScript
`undefined` erases the binding (extensionally, through `get`). -/
def docSetO {V : Type} (d : Doc V) (p : Path) : Option V → Doc V
  | some v => docSet d p v
  | none => docErase d p

/-- Extensional equality of documents: `get` agrees on every path. -/
def DocEquiv {V : Type} (d1 d2 : Doc V) : Prop :=
  ∀ p, docGet d1 p = docGet d2 p

/-- Equality of possibly-failing document computations: both fail, or both
succeed with extensionally equal documents. -/
def ODocEquiv {V : Type} : Option (Doc V) → Option (Doc V) → Prop
  | none, none => True
  | some d1, some d2 => DocEquiv d1 d2
  | _, _ => False

/-- The interface consumed from a leaf OT algebra (`TextOperation` or
`ArrayOperation`, both external to the sources): `apply`, `invert`,
`transform` and `isNOP`.  Application and transformation may fail (the leaf
is responsible for its own bounds checks). -/
structure LeafOT (L V : Type) where
  apply : L → V → Option V
  invert : L → L
  transform : L → L → Option (L × L)
  isNOP : L → Bool

/-- The parameters the `ObjectOperation` algebra is built over: JavaScript
truthiness on values, and the two leaf algebras. -/
structure OTParams (V T A : Type) where
  truthy : V → Bool
  text : LeafOT T V
  arr : LeafOT A V

/-- TP1 convergence of a leaf algebra, as assumed by the spec: when both
leaf ops apply to a value and transform succeeds, the two application orders
agree (including on definedness). -/
def LeafTP1 {L V : Type} (lo : LeafOT L V) : Prop :=
  ∀ da db da' db' v x y, lo.transform da db = some (da', db') →
    lo.apply da v = some x → lo.apply db v = some y →
    lo.apply da' y = lo.apply db' x

/-- Invertibility of a leaf algebra, as assumed by the spec. -/
def LeafInvertible {L V : Type} (lo : LeafOT L V) : Prop :=
  ∀ d v w, lo.apply d v = some w → lo.apply (lo.invert d) w = some v

/--
`ObjectOperation`, the tagged variant from the constructor: NOP, Create,
Delete, Update (whose `diff` is a text or an array leaf op; `propertyType`
is derived from the variant), Set.  `val`/`original` fields are `Option`s:
JavaScript objects may hold `undefined` there (the constructor mandates a
truthy `val` only for Create and Delete, captured by `wfOp` below).
-/
inductive Op (V T A : Type) where
  | nop : Op V T A
  | create (path : Path) (val : Option V) : Op V T A
  | delete (path : Path) (val : Option V) : Op V T A
  | update (path : Path) (diff : T ⊕ A) : Op V T A
  | set (path : Path) (val : Option V) (original : Option V) : Op V T A
deriving DecidableEq

namespace Op

/-- The constructor's invariants: Create and Delete carry a truthy `val`
(`if (!data.val) throw`); other shapes impose nothing further. -/
def wfOp {V T A : Type} (P : OTParams V T A) : Op V T A → Prop
  | create _ v => ∃ w, v = some w ∧ P.truthy w = true
  | delete _ v => ∃ w, v = some w ∧ P.truthy w = true
  | _ => True

/-- `this.type` as a plain tag (residual fields left by in-place type
rewrites are inert in the source: every consumer dispatches on `type`). -/
inductive Tag where
  | nop | create | delete | update | set
deriving DecidableEq

def typeOf {V T A : Type} : Op V T A → Tag
  | Op.nop => Tag.nop
  | Op.create _ _ => Tag.create
  | Op.delete _ _ => Tag.delete
  | Op.update _ _ => Tag.update
  | Op.set _ _ _ => Tag.set

/-- `this.path` (a NOP carries no path; `[]` stands for `undefined`,
guarded by the NOP checks everywhere the source reads it). -/
def pathOf {V T A : Type} : Op V T A → Path
  | Op.nop => []
  | Op.create p _ => p
  | Op.delete p _ => p
  | Op.update p _ => p
  | Op.set p _ _ => p

/-- `getValue()`: `this.val`. -/
def getValue {V T A : Type} : Op V T A → Option V
  | Op.create _ v => v
  | Op.delete _ v => v
  | Op.set _ v _ => v
  | _ => none

/-- `getOldValue()`: `this.original`. -/
def getOldValue {V T A : Type} : Op V T A → Option V
  | Op.set _ _ o => o
  | _ => none

/-- Dispatch of a leaf-op application over the two leaf variants. -/
def leafApplyS {V T A : Type} (P : OTParams V T A) : T ⊕ A → V → Option V
  | Sum.inl t, v => P.text.apply t v
  | Sum.inr a, v => P.arr.apply a v

/-- Dispatch of leaf `isNOP` over the two leaf variants. -/
def leafIsNOPS {V T A : Type} (P : OTParams V T A) : T ⊕ A → Bool
  | Sum.inl t => P.text.isNOP t
  | Sum.inr a => P.arr.isNOP a

/-- Dispatch of leaf `invert` over the two leaf variants. -/
def leafInvertS {V T A : Type} (P : OTParams V T A) : T ⊕ A → T ⊕ A
  | Sum.inl t => Sum.inl (P.text.invert t)
  | Sum.inr a => Sum.inr (P.arr.invert a)

/-- `isNOP()`: true for type NOP; an Update delegates to its diff; other
types yield `undefined` (falsy). -/
def isNOP {V T A : Type} (P : OTParams V T A) : Op V T A → Bool
  | Op.nop => true
  | Op.update _ d => leafIsNOPS P d
  | _ => false

/--
`apply(obj)`.  NOP returns the document unchanged; Create and Set write
(a deep copy of) `val`; Delete performs a strict delete, failing when the
path is absent; Update reads the old value, applies the diff and writes the
result.  Modelled from the spec: the leaf diff applied to an absent value
fails its own bounds checks, so an Update of an absent path fails.
-/
def applyOp {V T A : Type} (P : OTParams V T A) : Op V T A → Doc V → Option (Doc V)
  | Op.nop, d => some d
  | Op.create p v, d => some (docSetO d p v)
  | Op.delete p _, d =>
      if (docGet d p).isSome then some (docErase d p) else none
  | Op.update p diff, d =>
      match docGet d p with
      | some old =>
        match leafApplyS P diff old with
        | some nw => some (docSet d p nw)
        | none => none
      | none => none
  | Op.set p v _, d => some (docSetO d p v)

/-- JavaScript truthiness filter on an optional value: a falsy or absent
value is not carried over (`if (this.val) data.val = cloneDeep(this.val)`). -/
def filt {V T A : Type} (P : OTParams V T A) : Option V → Option V
  | some w => if P.truthy w then some w else none
  | none => none

/--
`clone()`: rebuilds the op from `{type, path}` plus `val` (only when
truthy) and `diff` (when present), through the constructor.  The `original`
of a Set is never carried over; a Create or Delete whose (falsy) `val` is
dropped makes the constructor throw (`none`).
-/
def clone {V T A : Type} (P : OTParams V T A) : Op V T A → Option (Op V T A)
  | Op.nop => some Op.nop
  | Op.create p v =>
      match filt P v with
      | some w => some (Op.create p (some w))
      | none => none
  | Op.delete p v =>
      match filt P v with
      | some w => some (Op.delete p (some w))
      | none => none
  | Op.update p diff => some (Op.update p diff)
  | Op.set p v _ => some (Op.set p (filt P v) none)

/-- `invert()`: Create and Delete swap types keeping path and val, an
Update inverts its diff, a Set swaps `val` and `original`. -/
def invert {V T A : Type} (P : OTParams V T A) : Op V T A → Op V T A
  | Op.nop => Op.nop
  | Op.create p v => Op.delete p v
  | Op.delete p v => Op.create p v
  | Op.update p diff => Op.update p (leafInvertS P diff)
  | Op.set p v o => Op.set p o v

/-- `hasConflict(a, b)`: false when either op has type NOP, otherwise
segment-wise path equality. -/
def hasConflict {V T A : Type} (a b : Op V T A) : Bool :=
  if a.typeOf = Tag.nop ∨ b.typeOf = Tag.nop then false
  else pathOf a = pathOf b

/-- The errors `transform` can raise: a `Conflict` carrying both operands,
the structural-impossibility errors of the rule table, and the
constructor / `fromJSON` failures. -/
inductive TErr (V T A : Type) where
  | conflict (a b : Op V T A) : TErr V T A
  | illegal : TErr V T A
  | malformed : TErr V T A
deriving DecidableEq

instance {ε α : Type} [DecidableEq ε] [DecidableEq α] : DecidableEq (Except ε α) :=
  fun x y =>
    match x, y with
    | Except.ok a, Except.ok b =>
      if h : a = b then Decidable.isTrue (by rw [h]) else Decidable.isFalse (by simp [h])
    | Except.error e, Except.error f =>
      if h : e = f then Decidable.isTrue (by rw [h]) else Decidable.isFalse (by simp [h])
    | Except.ok _, Except.error _ => Decidable.isFalse (by simp)
    | Except.error _, Except.ok _ => Decidable.isFalse (by simp)

/-- `transform_delete_update(a, b, flipped)` with `a` the Delete and `b`
the Update.  Not flipped: the pair becomes `(NOP, Create(diff.apply(a.val)))`;
flipped (originally `(Update, Delete)`): the Delete's `val` becomes the
updated value and the Update becomes NOP.  Applying the diff to the Delete's
recorded `val` happens during transformation: its failure (including an
absent `val`) aborts the transform. -/
def tDeleteUpdate {V T A : Type} (P : OTParams V T A) (p : Path)
    (dval : Option V) (diff : T ⊕ A) (flipped : Bool) :
    Except (TErr V T A) (Op V T A × Op V T A) :=
  match dval with
  | some w =>
    match leafApplyS P diff w with
    | some nw =>
      if flipped then Except.ok (Op.nop, Op.delete p (some nw))
      else Except.ok (Op.nop, Op.create p (some nw))
    | none => Except.error TErr.illegal
  | none => Except.error TErr.malformed

/-- `transform_update_update(a, b)`: dispatches on `b`'s leaf variant;
re-reading `a`'s diff as that variant fails on a mismatched leaf type
(`fromJSON` of the wrong shape); otherwise the leaf transform (invoked with
`inplace: true`) provides both transformed diffs. -/
def tUpdateUpdate {V T A : Type} (P : OTParams V T A) (pa pb : Path)
    (da db : T ⊕ A) : Except (TErr V T A) (Op V T A × Op V T A) :=
  match db with
  | Sum.inl tb =>
    match da with
    | Sum.inl ta =>
      match P.text.transform ta tb with
      | some (ta', tb') => Except.ok (Op.update pa (Sum.inl ta'), Op.update pb (Sum.inl tb'))
      | none => Except.error TErr.illegal
    | Sum.inr _ => Except.error TErr.malformed
  | Sum.inr ab =>
    match da with
    | Sum.inr aa =>
      match P.arr.transform aa ab with
      | some (aa', ab') => Except.ok (Op.update pa (Sum.inr aa'), Op.update pb (Sum.inr ab'))
      | none => Except.error TErr.illegal
    | Sum.inl _ => Except.error TErr.malformed

/-- The rule table `__transform__`, dispatched on the pair of type tags.
Inputs are the already-cloned operations; each rule rewrites them as the
source mutations do (residual fields of a type rewrite are inert). -/
def dispatch {V T A : Type} (P : OTParams V T A) :
    Op V T A → Op V T A → Except (TErr V T A) (Op V T A × Op V T A)
  -- transform_delete_delete: both turned into NOPs
  | Op.delete _ _, Op.delete _ _ => Except.ok (Op.nop, Op.nop)
  -- transform_create_create
  | Op.create _ _, Op.create _ _ => Except.error TErr.illegal
  -- transform_delete_create (both orientations)
  | Op.delete _ _, Op.create _ _ => Except.error TErr.illegal
  | Op.create _ _, Op.delete _ _ => Except.error TErr.illegal
  -- transform_create_update (both orientations)
  | Op.create _ _, Op.update _ _ => Except.error TErr.illegal
  | Op.update _ _, Op.create _ _ => Except.error TErr.illegal
  -- transform_create_set (both orientations)
  | Op.create _ _, Op.set _ _ _ => Except.error TErr.illegal
  | Op.set _ _ _, Op.create _ _ => Except.error TErr.illegal
  -- transform_delete_update, both orientations
  | Op.delete _ dv, Op.update pb diff => tDeleteUpdate P pb dv diff false
  | Op.update _ diff, Op.delete pb dv => tDeleteUpdate P pb dv diff true
  -- transform_update_update
  | Op.update pa da, Op.update pb db => tUpdateUpdate P pa pb da db
  -- transform_delete_set: the Delete becomes NOP and the Set becomes a
  -- Create of its val with original cleared; flipped, the Set becomes NOP
  -- and the Delete's val is replaced by the Set's val
  | Op.delete _ _, Op.set pb sv _ => Except.ok (Op.nop, Op.create pb sv)
  | Op.set _ sv _, Op.delete pb _ => Except.ok (Op.nop, Op.delete pb sv)
  -- transform_update_set (both orientations)
  | Op.update _ _, Op.set _ _ _ => Except.error TErr.illegal
  | Op.set _ _ _, Op.update _ _ => Except.error TErr.illegal
  -- transform_set_set: a becomes NOP, b.original := a.val
  | Op.set _ av _, Op.set pb bv _ => Except.ok (Op.nop, Op.set pb bv av)
  -- unreachable: NOP rows are cut off by the isNOP short-circuit
  | Op.nop, _ => Except.error TErr.illegal
  | _, Op.nop => Except.error TErr.illegal

/--
`ObjectOperation.transform(a, b, options)`: the `no-conflict` check comes
first (on the original operands), then both operands are cloned (the
default, non-`inplace` path; a clone failure is the constructor throwing),
then the NOP short-circuit, then the identity on distinct paths, and
finally the rule table.
-/
def transform {V T A : Type} (P : OTParams V T A) (noConflict : Bool)
    (a b : Op V T A) : Except (TErr V T A) (Op V T A × Op V T A) :=
  if noConflict && hasConflict a b then Except.error (TErr.conflict a b)
  else
    match clone P a, clone P b with
    | some a', some b' =>
      if isNOP P a' || isNOP P b' then Except.ok (a', b')
      else if pathOf a' = pathOf b' then dispatch P a' b'
      else Except.ok (a', b')
    | _, _ => Except.error TErr.malformed

end Op

/-! ## The `StubHub` coordinator (`ServerWebSocket.js`)

`DocumentChange` and the document it applies to are external to the sources;
the change type `C` and document type `D` are abstract, with the operations
the hub consumes (`doc._apply`, `DocumentChange.transformInplace`) as
parameters.  `change.clone()` on a pure value is the value itself. -/

namespace Hub

/-- The operations the hub consumes from the document model and from
`DocumentChange`. -/
structure HubParams (C D : Type) where
  applyChange : D → C → D
  transformInplace : C → C → C × C

/-- One element of a wire message (the JSON arrays the hub sends are
heterogeneous: a string tag, numbers, embedded changes). -/
inductive Payload (C : Type) where
  | str (s : String) : Payload C
  | num (n : Nat) : Payload C
  | chg (c : C) : Payload C
deriving DecidableEq

/-- A message: target client id and the single `data` argument of
`ws.send(data)` (extra positional arguments to `send` are dropped). -/
abbrev Msg (C : Type) : Type := Nat × List (Payload C)

/-- Hub state: the document (with its `version` counter), the ordered
change log, and the connected sessions. -/
structure HubState (C D : Type) where
  version : Nat
  changes : List C
  doc : D
  sessions : List Nat
deriving DecidableEq

/-- The events the hub serializes: a socket connecting, the `open`,
`commit` and `close` messages. -/
inductive HubEvent (C : Type) where
  | connect (sid : Nat) : HubEvent C
  | openDoc (sid : Nat) (docId : String) (version : Nat) : HubEvent C
  | commit (sid : Nat) (change : C) (version : Nat) : HubEvent C
  | close (sid : Nat) : HubEvent C

/-- `getChangesSinceVersion(version)`: `this.changes.splice(version-1)` —
returns the log from index `version-1` on and, being a splice, truncates
the stored log to its first `version-1` elements. -/
def getChangesSinceVersion {C : Type} (changes : List C) (version : Nat) :
    List C × List C :=
  (changes.drop (version - 1), changes.take (version - 1))

/-- `_applyChange(change)`: apply to the document, push onto the log,
bump the version. -/
def applyChangeState {C D : Type} (P : HubParams C D) (s : HubState C D)
    (c : C) : HubState C D :=
  { s with
    doc := P.applyChange s.doc c
    changes := s.changes ++ [c]
    version := s.version + 1 }

/-- `getCollaboratorSockets(ws)`: every connected session except the one
the message came from. -/
def collaborators {C D : Type} (s : HubState C D) (sid : Nat) : List Nat :=
  s.sessions.filter (fun t => t ≠ sid)

/-- The rebase-path transformation loop: for each missed change in order,
`DocumentChange.transformInplace(changes[i], newChange)`, threading the
incoming change through and collecting the transformed missed changes. -/
def rebaseLoop {C D : Type} (P : HubParams C D) (missed : List C) (incoming : C) :
    List C × C :=
  match missed with
  | [] => ([], incoming)
  | m :: rest =>
    let t := P.transformInplace m incoming
    let r := rebaseLoop P rest t.2
    (t.1 :: r.1, r.2)

/--
One serialized step of the hub.

* `connect`: the socket joins `wss.clients`; no data exchanged.
* `openDoc`: replies `['openDone', version]`, echoing the version the
  client sent; no state change.
* `commit(change, version)`: fast path when the hub is at `version` —
  `_applyChange(change)`, `['commitDone', newVersion]` to the committer and
  `['update', change, newVersion]` to every collaborator.  Otherwise the
  rebase path: `getChangesSinceVersion(this.doc.version)` (note: the hub's
  own version), the transformation loop over its result, `_applyChange` of
  the (thus never actually transformed) incoming change,
  `['update', newVersion, newChange]` to every collaborator, and
  `ws.send(['commitDone'], newVersion, changes)` — whose single data
  argument is `['commitDone']`.
* `close`: modelled from the spec — the sources install no `close` handler;
  per the spec it removes the session and sends nothing, leaving version,
  log and document untouched.
-/
def step {C D : Type} (P : HubParams C D) (s : HubState C D) :
    HubEvent C → HubState C D × List (Msg C)
  | HubEvent.connect sid => ({ s with sessions := s.sessions ++ [sid] }, [])
  | HubEvent.openDoc sid _ version => (s, [(sid, [Payload.str "openDone", Payload.num version])])
  | HubEvent.commit sid change version =>
    if s.version = version then
      let s' := applyChangeState P s change
      (s', (sid, [Payload.str "commitDone", Payload.num s'.version]) ::
        (collaborators s sid).map
          (fun t => (t, [Payload.str "update", Payload.chg change, Payload.num s'.version])))
    else
      let sp := getChangesSinceVersion s.changes s.version
      let rb := rebaseLoop P sp.1 change
      let s' := applyChangeState P { s with changes := sp.2 } rb.2
      (s',
        ((collaborators s sid).map
          (fun t => (t, [Payload.str "update", Payload.num s'.version, Payload.chg rb.2])))
        ++ [(sid, [Payload.str "commitDone"])])
  | HubEvent.close sid => ({ s with sessions := s.sessions.filter (fun t => t ≠ sid) }, [])

/-- The initial hub state: version 1, empty log. -/
def init {C D : Type} (d0 : D) : HubState C D :=
  { version := 1, changes := [], doc := d0, sessions := [] }

/-- Running a sequence of serialized events. -/
def run {C D : Type} (P : HubParams C D) (s : HubState C D) :
    List (HubEvent C) → HubState C D
  | [] => s
  | e :: es => run P (step P s e).1 es

end Hub

/-! ## A concrete leaf algebra

The integers acting on integer values by addition: a simple leaf OT algebra
satisfying TP1 and invertibility, used to instantiate the abstract theorems
at concrete inputs.  Truthiness on integer values is the JavaScript one:
`0` is falsy. -/

def intLeaf : LeafOT Int Int where
  apply := fun n v => some (v + n)
  invert := fun n => -n
  transform := fun a b => some (a, b)
  isNOP := fun n => decide (n = 0)

/-- The additive leaf algebra satisfies TP1. -/
theorem intLeaf_TP1 : LeafTP1 intLeaf := by
  intro da db da' db' v x y ht h1 h2
  simp only [intLeaf, Option.some.injEq, Prod.mk.injEq] at ht h1 h2 ⊢
  omega

/-- The additive leaf algebra is invertible. -/
theorem intLeaf_invertible : LeafInvertible intLeaf := by
  intro d v w h
  simp only [intLeaf, Option.some.injEq] at h ⊢
  omega

/-- The concrete parameter pack: integer values with JavaScript truthiness,
additive leaves on both the text and the array side. -/
def P0 : OTParams Int Int Int where
  truthy := fun v => decide (v ≠ 0)
  text := intLeaf
  arr := intLeaf

/-! ## Document lemmas -/

theorem docGet_cons {V : Type} (e : Path × V) (t : Doc V) (p : Path) :
    docGet (e :: t) p = if e.1 = p then some e.2 else docGet t p := by
  cases e; rfl

theorem docGet_docErase {V : Type} (d : Doc V) (p q : Path) :
    docGet (docErase d p) q = if q = p then none else docGet d q := by
  induction d with
  | nil => simp [docErase, docGet]
  | cons e t ih =>
    rw [docErase]
    by_cases he : e.1 = p
    · rw [if_pos he, ih, docGet_cons]
      by_cases hq : q = p
      · simp [hq]
      · have hne : e.1 ≠ q := by rw [he]; exact fun h => hq h.symm
        simp [hq, hne]
    · rw [if_neg he, docGet_cons, docGet_cons, ih]
      by_cases hq : q = p
      · subst hq
        have hne : e.1 ≠ q := he
        simp [hne]
      · simp [hq]

theorem docGet_docSet {V : Type} (d : Doc V) (p q : Path) (v : V) :
    docGet (docSet d p v) q = if q = p then some v else docGet d q := by
  rw [docSet, docGet_cons, docGet_docErase]
  by_cases hq : q = p
  · subst hq; simp
  · have hpq : ¬ p = q := fun h => hq h.symm
    simp [hq, hpq]

theorem docGet_docSetO {V : Type} (d : Doc V) (p q : Path) (c : Option V) :
    docGet (docSetO d p c) q = if q = p then c else docGet d q := by
  cases c with
  | none => rw [docSetO, docGet_docErase]
  | some v => rw [docSetO, docGet_docSet]

theorem DocEquiv.refl {V : Type} (d : Doc V) : DocEquiv d d := fun _ => rfl

namespace Op

/-- The single-cell action of a non-NOP operation: what the operation does
to the value found at its own path. -/
def cellF {V T A : Type} (P : OTParams V T A) : Op V T A → Option V → Option (Option V)
  | Op.nop, _ => none
  | Op.create _ v, _ => some v
  | Op.delete _ _, c => if c.isSome then some none else none
  | Op.update _ diff, c =>
    match c with
    | some old => (leafApplyS P diff old).map some
    | none => none
  | Op.set _ v _, _ => some v

/-- A non-NOP operation reads only the value at its own path and rewrites
only that value. -/
theorem applyOp_spec {V T A : Type} (P : OTParams V T A) (o : Op V T A)
    (d : Doc V) (h : o.typeOf ≠ Tag.nop) :
    applyOp P o d = (cellF P o (docGet d o.pathOf)).map (docSetO d o.pathOf) := by
  cases o with
  | nop => exact absurd rfl h
  | create p v => simp [applyOp, cellF, pathOf]
  | delete p v =>
    simp only [applyOp, cellF, pathOf]
    by_cases hs : (docGet d p).isSome
    · simp [hs, docSetO]
    · simp [hs]
  | update p diff =>
    simp only [applyOp, cellF, pathOf]
    cases docGet d p with
    | none => simp
    | some old =>
      cases hl : leafApplyS P diff old with
      | none => simp [hl]
      | some nw => simp [hl, docSetO]
  | set p v o => simp [applyOp, cellF, pathOf]

/-- An operation is reduced when it is not an Update wrapping a leaf NOP
(such an Update satisfies `isNOP()` without having type NOP). -/
def reduced {V T A : Type} (P : OTParams V T A) : Op V T A → Prop
  | Op.update _ diff => leafIsNOPS P diff = false
  | _ => True

/-- A Set carries a present, truthy `val` (so the clone step preserves
it). -/
def setValTruthy {V T A : Type} (P : OTParams V T A) : Op V T A → Prop
  | Op.set _ v _ => ∃ w, v = some w ∧ P.truthy w = true
  | _ => True

/-- A Delete correctly records the value currently stored at its path. -/
def delCoherent {V T A : Type} (s : Doc V) : Op V T A → Prop
  | Op.delete p v => docGet s p = v
  | _ => True

/-- What `clone()` produces on a constructible operation: the operation
itself, except that a Set's `original` is dropped. -/
def cloneNorm {V T A : Type} : Op V T A → Op V T A
  | Op.set p v _ => Op.set p v none
  | o => o

theorem clone_eq {V T A : Type} (P : OTParams V T A) (o : Op V T A)
    (hwf : wfOp P o) (hst : setValTruthy P o) :
    clone P o = some (cloneNorm o) := by
  cases o with
  | nop => rfl
  | create p v =>
    obtain ⟨w, hv, hw⟩ := hwf
    subst hv
    simp [clone, filt, hw, cloneNorm]
  | delete p v =>
    obtain ⟨w, hv, hw⟩ := hwf
    subst hv
    simp [clone, filt, hw, cloneNorm]
  | update p diff => rfl
  | set p v o =>
    obtain ⟨w, hv, hw⟩ := hst
    subst hv
    simp [clone, filt, hw, cloneNorm]

theorem cloneNorm_typeOf {V T A : Type} (o : Op V T A) :
    (cloneNorm o).typeOf = o.typeOf := by
  cases o <;> rfl

theorem cloneNorm_pathOf {V T A : Type} (o : Op V T A) :
    (cloneNorm o).pathOf = o.pathOf := by
  cases o <;> rfl

theorem isNOP_cloneNorm {V T A : Type} (P : OTParams V T A) (o : Op V T A) :
    isNOP P (cloneNorm o) = isNOP P o := by
  cases o <;> rfl

theorem applyOp_cloneNorm {V T A : Type} (P : OTParams V T A) (o : Op V T A)
    (d : Doc V) : applyOp P (cloneNorm o) d = applyOp P o d := by
  cases o <;> rfl

theorem ODocEquiv_some_some {V : Type} (d1 d2 : Doc V) :
    ODocEquiv (some d1) (some d2) ↔ DocEquiv d1 d2 := Iff.rfl

/-- Two applicable operations on distinct paths commute (extensionally,
including on definedness). -/
theorem applyOp_comm_ne {V T A : Type} (P : OTParams V T A) (a b : Op V T A)
    (ha : a.typeOf ≠ Tag.nop) (hb : b.typeOf ≠ Tag.nop)
    (hp : a.pathOf ≠ b.pathOf) {s s1 s2 : Doc V}
    (h1 : applyOp P a s = some s1) (h2 : applyOp P b s = some s2) :
    ODocEquiv (applyOp P a s2) (applyOp P b s1) := by
  rw [applyOp_spec P a s ha] at h1
  rw [applyOp_spec P b s hb] at h2
  cases hc1 : cellF P a (docGet s a.pathOf) with
  | none => rw [hc1] at h1; simp at h1
  | some c1 =>
    rw [hc1] at h1
    simp only [Option.map_some', Option.some.injEq] at h1
    cases hc2 : cellF P b (docGet s b.pathOf) with
    | none => rw [hc2] at h2; simp at h2
    | some c2 =>
      rw [hc2] at h2
      simp only [Option.map_some', Option.some.injEq] at h2
      subst h1
      subst h2
      rw [applyOp_spec P a _ ha, applyOp_spec P b _ hb]
      have hpb : b.pathOf ≠ a.pathOf := fun h => hp h.symm
      have ga : docGet (docSetO s b.pathOf c2) a.pathOf = docGet s a.pathOf := by
        rw [docGet_docSetO, if_neg hp]
      have gb : docGet (docSetO s a.pathOf c1) b.pathOf = docGet s b.pathOf := by
        rw [docGet_docSetO, if_neg hpb]
      rw [ga, gb, hc1, hc2]
      rw [Option.map_some', Option.map_some', ODocEquiv_some_some]
      intro q
      rw [docGet_docSetO, docGet_docSetO, docGet_docSetO, docGet_docSetO]
      by_cases hqa : q = a.pathOf
      · have hqb : ¬ q = b.pathOf := fun h => hp (hqa ▸ h)
        simp [hqa, hqb, hp]
      · by_cases hqb : q = b.pathOf
        · simp [hqa, hqb, hpb]
        · simp [hqa, hqb]

theorem hasConflict_iff {V T A : Type} (a b : Op V T A) :
    hasConflict a b = true ↔
      (a.typeOf ≠ Tag.nop ∧ b.typeOf ≠ Tag.nop ∧ a.pathOf = b.pathOf) := by
  unfold hasConflict
  by_cases h : a.typeOf = Tag.nop ∨ b.typeOf = Tag.nop
  · simp [h]
    tauto
  · push_neg at h
    simp [h, h.1, h.2]

theorem tDeleteUpdate_no_conflict {V T A : Type} (P : OTParams V T A)
    (p : Path) (dv : Option V) (diff : T ⊕ A) (fl : Bool) (x y : Op V T A) :
    tDeleteUpdate P p dv diff fl ≠ Except.error (TErr.conflict x y) := by
  cases dv with
  | none => simp [tDeleteUpdate]
  | some w =>
    cases hl : leafApplyS P diff w with
    | none => simp [tDeleteUpdate, hl]
    | some nw => cases fl <;> simp [tDeleteUpdate, hl]

theorem tUpdateUpdate_no_conflict {V T A : Type} (P : OTParams V T A)
    (pa pb : Path) (da db : T ⊕ A) (x y : Op V T A) :
    tUpdateUpdate P pa pb da db ≠ Except.error (TErr.conflict x y) := by
  cases db with
  | inl tb =>
    cases da with
    | inl ta =>
      cases hl : P.text.transform ta tb with
      | none => simp [tUpdateUpdate, hl]
      | some r => cases r; simp [tUpdateUpdate, hl]
    | inr _ => simp [tUpdateUpdate]
  | inr ab =>
    cases da with
    | inr aa =>
      cases hl : P.arr.transform aa ab with
      | none => simp [tUpdateUpdate, hl]
      | some r => cases r; simp [tUpdateUpdate, hl]
    | inl _ => simp [tUpdateUpdate]

theorem dispatch_no_conflict {V T A : Type} (P : OTParams V T A)
    (a b x y : Op V T A) : dispatch P a b ≠ Except.error (TErr.conflict x y) := by
  cases a <;> cases b <;> simp only [dispatch] <;>
    first
      | apply tDeleteUpdate_no_conflict
      | apply tUpdateUpdate_no_conflict
      | simp

/-- Inversion: a `Conflict` error comes only from the initial guard, with
`noConflict` set, `hasConflict` true, and the original operands carried. -/
theorem transform_conflict_inv {V T A : Type} (P : OTParams V T A) (nc : Bool)
    (a b x y : Op V T A)
    (h : transform P nc a b = Except.error (TErr.conflict x y)) :
    nc = true ∧ hasConflict a b = true ∧ x = a ∧ y = b := by
  unfold transform at h
  by_cases hg : (nc && hasConflict a b) = true
  · rw [if_pos hg] at h
    simp only [Except.error.injEq, TErr.conflict.injEq] at h
    exact ⟨(Bool.and_eq_true _ _).mp hg |>.1, (Bool.and_eq_true _ _).mp hg |>.2,
      h.1.symm, h.2.symm⟩
  · rw [if_neg hg] at h
    exfalso
    cases hca : clone P a <;> cases hcb : clone P b <;> rw [hca, hcb] at h
    · simp at h
    · simp at h
    · simp at h
    · rename_i a' b'
      have h' : (if (isNOP P a' || isNOP P b') = true then Except.ok (a', b')
          else if a'.pathOf = b'.pathOf then dispatch P a' b'
          else Except.ok (a', b')) = Except.error (TErr.conflict x y) := h
      by_cases hn : (isNOP P a' || isNOP P b') = true
      · rw [if_pos hn] at h'; simp at h'
      · rw [if_neg hn] at h'
        by_cases hpq : a'.pathOf = b'.pathOf
        · rw [if_pos hpq] at h'
          exact dispatch_no_conflict P a' b' x y h'
        · rw [if_neg hpq] at h'; simp at h'

/--
C9: `transform` with the `no-conflict` option raises a `Conflict` error
carrying both operands exactly when the two operations have equal paths and
neither has type NOP; with the option unset it never raises `Conflict`
(whatever else it may raise), and with it set it never raises `Conflict`
when either op is a NOP or the paths differ.
-/
theorem C9_conflict_characterization {V T A : Type} (P : OTParams V T A)
    (a b : Op V T A) :
    (transform P true a b = Except.error (TErr.conflict a b) ↔
      (a.typeOf ≠ Tag.nop ∧ b.typeOf ≠ Tag.nop ∧ a.pathOf = b.pathOf)) ∧
    (∀ x y : Op V T A, transform P false a b ≠ Except.error (TErr.conflict x y)) := by
  constructor
  · constructor
    · intro h
      exact (hasConflict_iff a b).mp ((transform_conflict_inv P true a b a b h).2.1)
    · intro h
      have hc : hasConflict a b = true := (hasConflict_iff a b).mpr h
      unfold transform
      simp [hc]
  · intro x y h
    exact absurd (transform_conflict_inv P false a b x y h).1 (by decide)

/--
C10: the conflict check precedes the NOP short-circuit and uses the type
tag, so with the `no-conflict` option two same-path Updates conflict even
when one diff is a leaf NOP — while without the option the same pair is
returned unchanged by the short-circuit.
-/
theorem C10_conflict_on_nop_diff_update {V T A : Type} (P : OTParams V T A)
    (p : Path) (d1 d2 : T ⊕ A) (h1 : leafIsNOPS P d1 = true) :
    transform P true (Op.update p d1) (Op.update p d2) =
      Except.error (TErr.conflict (Op.update p d1) (Op.update p d2)) ∧
    transform P false (Op.update p d1) (Op.update p d2) =
      Except.ok (Op.update p d1, Op.update p d2) := by
  have hc : hasConflict (Op.update (V := V) p d1) (Op.update p d2) = true := by
    rw [hasConflict_iff]
    exact ⟨by simp [typeOf], by simp [typeOf], rfl⟩
  constructor
  · unfold transform
    simp [hc]
  · unfold transform
    simp [clone, isNOP, h1]

/-- Witness for C10 at a concrete input: the additive leaf `0` is a leaf
NOP, and the two behaviours follow. -/
theorem C10_conflict_on_nop_diff_update_witness :
    leafIsNOPS P0 (Sum.inl 0) = true ∧
    (transform P0 true (Op.update ["title"] (Sum.inl 0)) (Op.update ["title"] (Sum.inl 5)) =
      Except.error (TErr.conflict (Op.update ["title"] (Sum.inl 0)) (Op.update ["title"] (Sum.inl 5))) ∧
    transform P0 false (Op.update ["title"] (Sum.inl 0)) (Op.update ["title"] (Sum.inl 5)) =
      Except.ok (Op.update ["title"] (Sum.inl 0), Op.update ["title"] (Sum.inl 5))) :=
  ⟨by decide, C10_conflict_on_nop_diff_update P0 ["title"] (Sum.inl 0) (Sum.inl 5) (by decide)⟩

/--
C6 (failing input): the op built by `ObjectOperation.Set(["x"], oldVal, newVal)`
with `oldVal = 1`, `newVal = 2` has `original = 1`, but its clone has no
`original` at all — `clone()` copies only `type`, `path`, a truthy `val`
and `diff`, so a Set's `original` does not survive cloning.  A falsy Set
`val` (here `0`) is dropped by the clone as well.
-/
theorem C6_clone_drops_set_original :
    clone P0 (Op.set ["x"] (some 2) (some 1)) = some (Op.set ["x"] (some 2) none) ∧
    getOldValue (Op.set (V := Int) (T := Int) (A := Int) ["x"] (some 2) (some 1)) = some 1 ∧
    clone P0 (Op.set ["x"] (some 0) (some 1)) = some (Op.set ["x"] none none) := by
  decide

/--
C7 (counterexample): transforming `Set(["x"], val 0)` against
`Delete(["x"], 2)` — the flipped orientation of rule D-S — does not replace
the Delete's `val` by the Set's `val`: the default clone step drops the
falsy val `0`, so the resulting Delete carries no `val` at all.
-/
theorem C7_delete_set_counterexample :
    transform P0 false (Op.set ["x"] (some 0) (some 1)) (Op.delete ["x"] (some 2)) =
      Except.ok (Op.nop, Op.delete ["x"] none) ∧
    getValue (Op.delete (V := Int) (T := Int) (A := Int) ["x"] none) ≠ some 0 := by
  decide

/--
C7 (amended): for a well-formed Delete and a Set whose `val` is truthy, on
the same path: `transform(Delete, Set)` makes the Delete side a NOP and the
Set side keeps its `val` with `original` cleared (as a Create of that
`val`); flipped, the Set side becomes a NOP and the Delete's `val` is
replaced by the Set's `val`.
-/
theorem C7_delete_set_rule {V T A : Type} (P : OTParams V T A) (p : Path)
    (wd ws : V) (ov : Option V)
    (hwd : P.truthy wd = true) (hws : P.truthy ws = true) :
    transform P false (Op.delete p (some wd)) (Op.set p (some ws) ov) =
      Except.ok (Op.nop, Op.create p (some ws)) ∧
    transform P false (Op.set p (some ws) ov) (Op.delete p (some wd)) =
      Except.ok (Op.nop, Op.delete p (some ws)) := by
  constructor <;>
    (unfold transform; simp [clone, filt, hwd, hws, isNOP, pathOf, dispatch])

/-- Witness for C7 at a concrete input. -/
theorem C7_delete_set_rule_witness :
    P0.truthy 2 = true ∧ P0.truthy 3 = true ∧
    (transform P0 false (Op.delete ["x"] (some 2)) (Op.set ["x"] (some 3) (some 1)) =
      Except.ok (Op.nop, Op.create ["x"] (some 3)) ∧
    transform P0 false (Op.set ["x"] (some 3) (some 1)) (Op.delete ["x"] (some 2)) =
      Except.ok (Op.nop, Op.delete ["x"] (some 3))) :=
  ⟨by decide, by decide,
    C7_delete_set_rule P0 ["x"] 2 3 (some 1) (by decide) (by decide)⟩

/--
C8 (counterexample): two same-path Updates with mismatched leaf types do
not make `transform` raise when one diff is a leaf NOP — the NOP
short-circuit returns the pair unchanged before the U-U rule is reached
(here the text diff `0` is the additive leaf's NOP).
-/
theorem C8_update_update_counterexample :
    transform P0 false (Op.update ["p"] (Sum.inl 0)) (Op.update ["p"] (Sum.inr 5)) =
      Except.ok (Op.update ["p"] (Sum.inl 0), Op.update ["p"] (Sum.inr 5)) := by
  decide

/--
C8 (amended): for two same-path Updates neither of whose diffs is a leaf
NOP: both text diffs give the pair produced by the text leaf transform,
both array diffs the pair produced by the array leaf transform, and
mismatched leaf variants raise an error in either orientation.
-/
theorem C8_update_update_rule {V T A : Type} (P : OTParams V T A) (p : Path)
    (ta tb ta' tb' : T) (aa ab aa' ab' : A)
    (hta : P.text.isNOP ta = false) (htb : P.text.isNOP tb = false)
    (haa : P.arr.isNOP aa = false) (hab : P.arr.isNOP ab = false)
    (htt : P.text.transform ta tb = some (ta', tb'))
    (hat : P.arr.transform aa ab = some (aa', ab')) :
    transform P false (Op.update p (Sum.inl ta)) (Op.update p (Sum.inl tb)) =
      Except.ok (Op.update p (Sum.inl ta'), Op.update p (Sum.inl tb')) ∧
    transform P false (Op.update p (Sum.inr aa)) (Op.update p (Sum.inr ab)) =
      Except.ok (Op.update p (Sum.inr aa'), Op.update p (Sum.inr ab')) ∧
    transform P false (Op.update p (Sum.inl ta)) (Op.update p (Sum.inr ab)) =
      Except.error TErr.malformed ∧
    transform P false (Op.update p (Sum.inr aa)) (Op.update p (Sum.inl tb)) =
      Except.error TErr.malformed := by
  refine ⟨?_, ?_, ?_, ?_⟩ <;>
    (unfold transform;
      simp [clone, isNOP, leafIsNOPS, hta, htb, haa, hab, pathOf, dispatch,
        tUpdateUpdate, htt, hat])

/-- Witness for C8 at a concrete input (additive leaves: `transform` is the
identity pair, `1` and `2` are not leaf NOPs). -/
theorem C8_update_update_rule_witness :
    P0.text.isNOP 1 = false ∧ P0.text.isNOP 2 = false ∧
    P0.text.transform 1 2 = some (1, 2) ∧
    (transform P0 false (Op.update ["p"] (Sum.inl 1)) (Op.update ["p"] (Sum.inl 2)) =
      Except.ok (Op.update ["p"] (Sum.inl 1), Op.update ["p"] (Sum.inl 2)) ∧
    transform P0 false (Op.update ["p"] (Sum.inr 1)) (Op.update ["p"] (Sum.inr 2)) =
      Except.ok (Op.update ["p"] (Sum.inr 1), Op.update ["p"] (Sum.inr 2)) ∧
    transform P0 false (Op.update ["p"] (Sum.inl 1)) (Op.update ["p"] (Sum.inr 2)) =
      Except.error TErr.malformed ∧
    transform P0 false (Op.update ["p"] (Sum.inr 1)) (Op.update ["p"] (Sum.inl 2)) =
      Except.error TErr.malformed) :=
  ⟨by decide, by decide, by decide,
    C8_update_update_rule P0 ["p"] 1 2 1 2 1 2 1 2 (by decide) (by decide)
      (by decide) (by decide) (by decide) (by decide)⟩

theorem typeOf_ne_nop_of_isNOP_false {V T A : Type} (P : OTParams V T A)
    (o : Op V T A) (h : isNOP P o = false) : o.typeOf ≠ Tag.nop := by
  cases o with
  | nop => simp [isNOP] at h
  | create p v => exact fun hc => Tag.noConfusion hc
  | delete p v => exact fun hc => Tag.noConfusion hc
  | update p d => exact fun hc => Tag.noConfusion hc
  | set p v o => exact fun hc => Tag.noConfusion hc

/-- Coherence of an op with the state it is applied to: a Create targets
an absent path, a Delete's `val` and a Set's `original` record the value
currently at the path (for a Set, recorded absence matches absence). -/
def coherent {V T A : Type} (s : Doc V) : Op V T A → Prop
  | Op.create p _ => docGet s p = none
  | Op.delete p v => docGet s p = v
  | Op.set p _ o => docGet s p = o
  | _ => True

theorem leafInvertS_apply {V T A : Type} (P : OTParams V T A)
    (hT : LeafInvertible P.text) (hA : LeafInvertible P.arr)
    (diff : T ⊕ A) (v w : V) (h : leafApplyS P diff v = some w) :
    leafApplyS P (leafInvertS P diff) w = some v := by
  cases diff with
  | inl t => exact hT t v w h
  | inr a => exact hA a v w h

/--
C2 (amended): for a well-formed op `o` coherent with `s` (Create targets an
absent path; Delete's `val` and Set's `original` record the current value),
with invertible leaf algebras, applying `o` and then `o.invert()` restores
`s` (extensionally, and the inverse is applicable).
-/
theorem C2_invert_restores {V T A : Type} (P : OTParams V T A)
    (hT : LeafInvertible P.text) (hA : LeafInvertible P.arr)
    (o : Op V T A) (s s1 : Doc V) (hwf : wfOp P o) (hco : coherent s o)
    (h1 : applyOp P o s = some s1) :
    ODocEquiv (applyOp P (invert P o) s1) (some s) := by
  cases o with
  | nop =>
    simp only [applyOp, Option.some.injEq] at h1
    subst h1
    exact DocEquiv.refl s
  | create p v =>
    obtain ⟨w, hv, hw⟩ := hwf
    subst hv
    have hco' : docGet s p = none := hco
    simp only [applyOp, docSetO, Option.some.injEq] at h1
    subst h1
    have hg : docGet (docSet s p w) p = some w := by rw [docGet_docSet]; simp
    simp only [invert, applyOp, hg, Option.isSome_some, if_true]
    rw [ODocEquiv_some_some]
    intro q
    rw [docGet_docErase, docGet_docSet]
    by_cases hq : q = p
    · subst hq; simp [hco']
    · simp [hq]
  | delete p v =>
    obtain ⟨w, hv, hw⟩ := hwf
    subst hv
    have hco' : docGet s p = some w := hco
    simp only [applyOp, hco', Option.isSome_some, if_true, Option.some.injEq] at h1
    subst h1
    simp only [invert, applyOp, docSetO]
    rw [ODocEquiv_some_some]
    intro q
    rw [docGet_docSet, docGet_docErase]
    by_cases hq : q = p
    · subst hq; simp [hco']
    · simp [hq]
  | update p diff =>
    simp only [applyOp] at h1
    cases hg : docGet s p with
    | none => rw [hg] at h1; simp at h1
    | some old =>
      rw [hg] at h1
      cases hl : leafApplyS P diff old with
      | none => simp [hl] at h1
      | some nw =>
        simp only [hl, Option.some.injEq] at h1
        subst h1
        have hg' : docGet (docSet s p nw) p = some nw := by rw [docGet_docSet]; simp
        have hl' : leafApplyS P (leafInvertS P diff) nw = some old :=
          leafInvertS_apply P hT hA diff old nw hl
        simp only [invert, applyOp, hg', hl']
        rw [ODocEquiv_some_some]
        intro q
        rw [docGet_docSet, docGet_docSet]
        by_cases hq : q = p
        · subst hq; simp [hg]
        · simp [hq]
  | set p v ov =>
    have hco' : docGet s p = ov := hco
    simp only [applyOp, Option.some.injEq] at h1
    subst h1
    simp only [invert, applyOp]
    rw [ODocEquiv_some_some]
    intro q
    rw [docGet_docSetO, docGet_docSetO]
    by_cases hq : q = p
    · subst hq; simp [hco']
    · simp [hq]

/--
C2 (counterexample): the well-formed op `Create(["x"], 2)` is applicable to
the state `{x: 1}` (Create silently overwrites), yet applying it and then
its inverse `Delete(["x"], 2)` yields `{}`, which differs from the original
state at `["x"]` — so the invertibility law fails as stated.
-/
theorem C2_invert_counterexample :
    P0.truthy 2 = true ∧
    (applyOp P0 (Op.create ["x"] (some 2)) [(["x"], (1 : Int))]).bind
      (applyOp P0 (invert P0 (Op.create ["x"] (some 2)))) = some [] ∧
    docGet ([] : Doc Int) ["x"] ≠ docGet [(["x"], (1 : Int))] ["x"] := by
  decide

/--
C1 (amended): TP1 convergence of the pairwise transform.  For well-formed,
reduced operations (no Update wrapping a leaf NOP) whose Deletes record the
current value at their path and whose Sets carry a present truthy value,
if both are applicable to `s` and `transform` succeeds, the two composite
applications agree — extensionally and on definedness — assuming the leaf
transforms satisfy TP1.
-/
theorem C1_tp1_convergence {V T A : Type} (P : OTParams V T A)
    (hT : LeafTP1 P.text) (hA : LeafTP1 P.arr)
    (a b : Op V T A) (nc : Bool) (s s1 s2 : Doc V) (a' b' : Op V T A)
    (hwa : wfOp P a) (hwb : wfOp P b)
    (hra : reduced P a) (hrb : reduced P b)
    (hsa : setValTruthy P a) (hsb : setValTruthy P b)
    (hda : delCoherent s a) (hdb : delCoherent s b)
    (h1 : applyOp P a s = some s1) (h2 : applyOp P b s = some s2)
    (ht : transform P nc a b = Except.ok (a', b')) :
    ODocEquiv (applyOp P a' s2) (applyOp P b' s1) := by
  unfold transform at ht
  by_cases hg : (nc && hasConflict a b) = true
  · rw [if_pos hg] at ht
    exact absurd ht (by simp)
  · rw [if_neg hg] at ht
    rw [clone_eq P a hwa hsa, clone_eq P b hwb hsb] at ht
    have ht' : (if (isNOP P (cloneNorm a) || isNOP P (cloneNorm b)) = true
        then Except.ok (cloneNorm a, cloneNorm b)
        else if (cloneNorm a).pathOf = (cloneNorm b).pathOf
          then dispatch P (cloneNorm a) (cloneNorm b)
          else Except.ok (cloneNorm a, cloneNorm b)) = Except.ok (a', b') := ht
    clear ht
    rw [isNOP_cloneNorm, isNOP_cloneNorm, cloneNorm_pathOf, cloneNorm_pathOf] at ht'
    by_cases hn : (isNOP P a || isNOP P b) = true
    · rw [if_pos hn] at ht'
      simp only [Except.ok.injEq, Prod.mk.injEq] at ht'
      obtain ⟨hea, heb⟩ := ht'
      subst hea
      subst heb
      rw [applyOp_cloneNorm, applyOp_cloneNorm]
      have hor : isNOP P a = true ∨ isNOP P b = true := by
        simpa using hn
      rcases hor with hna | hnb
      · cases a with
        | nop =>
          simp only [applyOp, Option.some.injEq] at h1
          subst h1
          show ODocEquiv (some s2) (applyOp P b s)
          rw [h2]
          exact DocEquiv.refl s2
        | update p d =>
          have hx : leafIsNOPS P d = true := hna
          have hy : leafIsNOPS P d = false := hra
          rw [hy] at hx
          exact Bool.noConfusion hx
        | create p v => simp [isNOP] at hna
        | delete p v => simp [isNOP] at hna
        | set p v o => simp [isNOP] at hna
      · cases b with
        | nop =>
          simp only [applyOp, Option.some.injEq] at h2
          subst h2
          show ODocEquiv (applyOp P a s) (some s1)
          rw [h1]
          exact DocEquiv.refl s1
        | update p d =>
          have hx : leafIsNOPS P d = true := hnb
          have hy : leafIsNOPS P d = false := hrb
          rw [hy] at hx
          exact Bool.noConfusion hx
        | create p v => simp [isNOP] at hnb
        | delete p v => simp [isNOP] at hnb
        | set p v o => simp [isNOP] at hnb
    · rw [if_neg hn] at ht'
      simp only [Bool.or_eq_true, not_or, Bool.not_eq_true] at hn
      obtain ⟨hna, hnb⟩ := hn
      by_cases hp : a.pathOf = b.pathOf
      · rw [if_pos hp] at ht'
        -- same-path dispatch
        cases a with
        | nop => simp [isNOP] at hna
        | create p1 v1 =>
          cases b with
          | nop => simp [isNOP] at hnb
          | create p2 v2 => simp [cloneNorm, dispatch] at ht'
          | delete p2 v2 => simp [cloneNorm, dispatch] at ht'
          | update p2 d2 => simp [cloneNorm, dispatch] at ht'
          | set p2 v2 o2 => simp [cloneNorm, dispatch] at ht'
        | delete p1 v1 =>
          obtain ⟨w1, hv1, hw1⟩ := hwa
          subst hv1
          have hda' : docGet s p1 = some w1 := hda
          cases b with
          | nop => simp [isNOP] at hnb
          | create p2 v2 => simp [cloneNorm, dispatch] at ht'
          | delete p2 v2 =>
            obtain ⟨w2, hv2, hw2⟩ := hwb
            subst hv2
            have hdb' : docGet s p2 = some w2 := hdb
            simp only [pathOf] at hp
            subst hp
            simp only [cloneNorm, dispatch, Except.ok.injEq, Prod.mk.injEq] at ht'
            obtain ⟨hea, heb⟩ := ht'
            subst hea
            subst heb
            simp only [applyOp, hda', Option.isSome_some, if_true,
              Option.some.injEq] at h1
            simp only [applyOp, hdb', Option.isSome_some, if_true,
              Option.some.injEq] at h2
            subst h1
            subst h2
            exact DocEquiv.refl _
          | update p2 d2 =>
            simp only [pathOf] at hp
            subst hp
            simp only [applyOp, hda'] at h2
            cases hl : leafApplyS P d2 w1 with
            | none => simp [hl] at h2
            | some y =>
              simp only [hl, Option.some.injEq] at h2
              subst h2
              simp [cloneNorm, dispatch, tDeleteUpdate, hl] at ht'
              obtain ⟨hea, heb⟩ := ht'
              subst hea
              subst heb
              simp only [applyOp, hda', Option.isSome_some, if_true,
                Option.some.injEq] at h1
              subst h1
              simp only [applyOp, docSetO]
              rw [ODocEquiv_some_some]
              intro q
              rw [docGet_docSet, docGet_docSet, docGet_docErase]
              by_cases hq : q = p1
              · simp [hq]
              · simp [hq]
          | set p2 v2 o2 =>
            obtain ⟨u, hv2, hu⟩ := hsb
            subst hv2
            simp only [pathOf] at hp
            subst hp
            simp only [cloneNorm, dispatch, Except.ok.injEq, Prod.mk.injEq] at ht'
            obtain ⟨hea, heb⟩ := ht'
            subst hea
            subst heb
            simp only [applyOp, hda', Option.isSome_some, if_true,
              Option.some.injEq] at h1
            simp only [applyOp, docSetO, Option.some.injEq] at h2
            subst h1
            subst h2
            simp only [applyOp, docSetO]
            rw [ODocEquiv_some_some]
            intro q
            rw [docGet_docSet, docGet_docSet, docGet_docErase]
            by_cases hq : q = p1
            · simp [hq]
            · simp [hq]
        | update p1 d1 =>
          cases b with
          | nop => simp [isNOP] at hnb
          | create p2 v2 => simp [cloneNorm, dispatch] at ht'
          | delete p2 v2 =>
            obtain ⟨w2, hv2, hw2⟩ := hwb
            subst hv2
            have hdb' : docGet s p2 = some w2 := hdb
            simp only [pathOf] at hp
            subst hp
            simp only [applyOp, hdb'] at h1
            cases hl : leafApplyS P d1 w2 with
            | none => simp [hl] at h1
            | some x =>
              simp only [hl, Option.some.injEq] at h1
              subst h1
              simp [cloneNorm, dispatch, tDeleteUpdate, hl] at ht'
              obtain ⟨hea, heb⟩ := ht'
              subst hea
              subst heb
              simp only [applyOp, hdb', Option.isSome_some, if_true,
                Option.some.injEq] at h2
              subst h2
              have hg1 : docGet (docSet s p1 x) p1 = some x := by
                rw [docGet_docSet]; simp
              simp only [applyOp, hg1, Option.isSome_some, if_true]
              rw [ODocEquiv_some_some]
              intro q
              rw [docGet_docErase, docGet_docErase, docGet_docSet]
              by_cases hq : q = p1
              · simp [hq]
              · simp [hq]
          | update p2 d2 =>
            simp only [pathOf] at hp
            subst hp
            cases hg0 : docGet s p1 with
            | none => simp only [applyOp, hg0] at h1; simp at h1
            | some old =>
              simp only [applyOp, hg0] at h1 h2
              cases hl1 : leafApplyS P d1 old with
              | none => simp [hl1] at h1
              | some x =>
                simp only [hl1, Option.some.injEq] at h1
                subst h1
                cases hl2 : leafApplyS P d2 old with
                | none => simp [hl2] at h2
                | some y =>
                  simp only [hl2, Option.some.injEq] at h2
                  subst h2
                  cases d2 with
                  | inl tb =>
                    cases d1 with
                    | inl ta =>
                      cases htr : P.text.transform ta tb with
                      | none =>
                        simp [cloneNorm, dispatch, tUpdateUpdate, htr] at ht'
                      | some r =>
                        obtain ⟨ta', tb'⟩ := r
                        simp only [cloneNorm, dispatch, tUpdateUpdate, htr,
                          Except.ok.injEq, Prod.mk.injEq] at ht'
                        obtain ⟨hea, heb⟩ := ht'
                        subst hea
                        subst heb
                        have htp1 : P.text.apply ta' y = P.text.apply tb' x :=
                          hT ta tb ta' tb' old x y htr hl1 hl2
                        have hgy : docGet (docSet s p1 y) p1 = some y := by
                          rw [docGet_docSet]; simp
                        have hgx : docGet (docSet s p1 x) p1 = some x := by
                          rw [docGet_docSet]; simp
                        simp only [applyOp, hgy, hgx, leafApplyS]
                        cases hz : P.text.apply ta' y with
                        | none =>
                          rw [← htp1, hz]
                          exact trivial
                        | some z =>
                          rw [← htp1, hz]
                          rw [ODocEquiv_some_some]
                          intro q
                          rw [docGet_docSet, docGet_docSet, docGet_docSet,
                            docGet_docSet]
                          by_cases hq : q = p1
                          · simp [hq]
                          · simp [hq]
                    | inr aa => simp [cloneNorm, dispatch, tUpdateUpdate] at ht'
                  | inr ab =>
                    cases d1 with
                    | inl ta => simp [cloneNorm, dispatch, tUpdateUpdate] at ht'
                    | inr aa =>
                      cases htr : P.arr.transform aa ab with
                      | none =>
                        simp [cloneNorm, dispatch, tUpdateUpdate, htr] at ht'
                      | some r =>
                        obtain ⟨aa', ab'⟩ := r
                        simp only [cloneNorm, dispatch, tUpdateUpdate, htr,
                          Except.ok.injEq, Prod.mk.injEq] at ht'
                        obtain ⟨hea, heb⟩ := ht'
                        subst hea
                        subst heb
                        have htp1 : P.arr.apply aa' y = P.arr.apply ab' x :=
                          hA aa ab aa' ab' old x y htr hl1 hl2
                        have hgy : docGet (docSet s p1 y) p1 = some y := by
                          rw [docGet_docSet]; simp
                        have hgx : docGet (docSet s p1 x) p1 = some x := by
                          rw [docGet_docSet]; simp
                        simp only [applyOp, hgy, hgx, leafApplyS]
                        cases hz : P.arr.apply aa' y with
                        | none =>
                          rw [← htp1, hz]
                          exact trivial
                        | some z =>
                          rw [← htp1, hz]
                          rw [ODocEquiv_some_some]
                          intro q
                          rw [docGet_docSet, docGet_docSet, docGet_docSet,
                            docGet_docSet]
                          by_cases hq : q = p1
                          · simp [hq]
                          · simp [hq]
          | set p2 v2 o2 => simp [cloneNorm, dispatch] at ht'
        | set p1 v1 o1 =>
          obtain ⟨ua, hv1, hua⟩ := hsa
          subst hv1
          cases b with
          | nop => simp [isNOP] at hnb
          | create p2 v2 => simp [cloneNorm, dispatch] at ht'
          | delete p2 v2 =>
            obtain ⟨w2, hv2, hw2⟩ := hwb
            subst hv2
            have hdb' : docGet s p2 = some w2 := hdb
            simp only [pathOf] at hp
            subst hp
            simp only [cloneNorm, dispatch, Except.ok.injEq, Prod.mk.injEq] at ht'
            obtain ⟨hea, heb⟩ := ht'
            subst hea
            subst heb
            simp only [applyOp, docSetO, Option.some.injEq] at h1
            simp only [applyOp, hdb', Option.isSome_some, if_true,
              Option.some.injEq] at h2
            subst h1
            subst h2
            have hg1 : docGet (docSet s p1 ua) p1 = some ua := by
              rw [docGet_docSet]; simp
            simp only [applyOp, hg1, Option.isSome_some, if_true]
            rw [ODocEquiv_some_some]
            intro q
            rw [docGet_docErase, docGet_docErase, docGet_docSet]
            by_cases hq : q = p1
            · simp [hq]
            · simp [hq]
          | update p2 d2 => simp [cloneNorm, dispatch] at ht'
          | set p2 v2 o2 =>
            obtain ⟨ub, hv2, hub⟩ := hsb
            subst hv2
            simp only [pathOf] at hp
            subst hp
            simp only [cloneNorm, dispatch, Except.ok.injEq, Prod.mk.injEq] at ht'
            obtain ⟨hea, heb⟩ := ht'
            subst hea
            subst heb
            simp only [applyOp, docSetO, Option.some.injEq] at h1 h2
            subst h1
            subst h2
            simp only [applyOp, docSetO]
            rw [ODocEquiv_some_some]
            intro q
            rw [docGet_docSet, docGet_docSet, docGet_docSet]
            by_cases hq : q = p1
            · simp [hq]
            · simp [hq]
      · rw [if_neg hp] at ht'
        simp only [Except.ok.injEq, Prod.mk.injEq] at ht'
        obtain ⟨hea, heb⟩ := ht'
        subst hea
        subst heb
        rw [applyOp_cloneNorm, applyOp_cloneNorm]
        exact applyOp_comm_ne P a b (typeOf_ne_nop_of_isNOP_false P a hna)
          (typeOf_ne_nop_of_isNOP_false P b hnb) hp h1 h2

/--
C1 (counterexample): with the additive leaf algebra (which satisfies leaf
TP1), the well-formed ops `a = Delete(["p"], 7)` and `b = Update(["p"], +1)`
are both applicable to `s = {p: 5}` and transform succeeds — but rule D-U
computes the Create's value from the Delete's recorded `val` (7), not from
the state, so the two application orders give `p = 6` and `p = 8`.
-/
theorem C1_tp1_counterexample :
    LeafTP1 P0.text ∧
    applyOp P0 (Op.delete ["p"] (some 7)) [(["p"], (5 : Int))] = some [] ∧
    applyOp P0 (Op.update ["p"] (Sum.inl 1)) [(["p"], (5 : Int))] =
      some [(["p"], 6)] ∧
    transform P0 false (Op.delete ["p"] (some 7)) (Op.update ["p"] (Sum.inl 1)) =
      Except.ok (Op.nop, Op.create ["p"] (some 8)) ∧
    (applyOp P0 Op.nop [(["p"], (6 : Int))]).map (fun d => docGet d ["p"]) ≠
      (applyOp P0 (Op.create ["p"] (some 8)) []).map (fun d => docGet d ["p"]) :=
  ⟨intLeaf_TP1, by decide, by decide, by decide, by decide⟩

/-- Witness for C1 at a concrete input: a coherent Delete against an
Update on the same path, with the additive leaves. -/
theorem C1_tp1_convergence_witness :
    docGet [(["p"], (5 : Int))] ["p"] = some 5 ∧
    ODocEquiv
      (applyOp P0 Op.nop [(["p"], (6 : Int))])
      (applyOp P0 (Op.create ["p"] (some 6)) []) :=
  ⟨rfl,
    C1_tp1_convergence P0 intLeaf_TP1 intLeaf_TP1
      (Op.delete ["p"] (some 5)) (Op.update ["p"] (Sum.inl 1)) false
      [(["p"], 5)] [] [(["p"], 6)] Op.nop (Op.create ["p"] (some 6))
      ⟨5, rfl, by decide⟩ trivial trivial rfl trivial trivial rfl trivial
      (by decide) (by decide) (by decide)⟩

/-- Witness for C2 at a concrete input: `Create(["x"], 2)` on the empty
document, restored by its inverse. -/
theorem C2_invert_restores_witness :
    P0.truthy 2 = true ∧ docGet ([] : Doc Int) ["x"] = none ∧
    ODocEquiv (applyOp P0 (invert P0 (Op.create ["x"] (some 2))) [(["x"], (2 : Int))])
      (some ([] : Doc Int)) :=
  ⟨by decide, rfl,
    C2_invert_restores P0 intLeaf_invertible intLeaf_invertible
      (Op.create ["x"] (some 2)) [] [(["x"], 2)] ⟨2, rfl, by decide⟩ rfl rfl⟩

end Op

namespace Hub

/-- A concrete hub parameter pack for witnesses: changes and documents are
numbers, application is addition, the batch transform is the identity
pair. -/
def P1 : HubParams Nat Nat where
  applyChange := fun d c => d + c
  transformInplace := fun a b => (a, b)

/--
C5 (amended): on `commit(change, v)` with `v` equal to the hub's version,
the hub applies the change to its document, appends it to the log, bumps
the version by exactly one, sends `['commitDone', newVersion]` to the
committing session and `['update', change, newVersion]` — the change
followed by the new version — to every other open session.
-/
theorem C5_fast_path {C D : Type} (P : HubParams C D) (s : HubState C D)
    (sid : Nat) (c : C) (v : Nat) (h : s.version = v) :
    step P s (HubEvent.commit sid c v) =
      ({ s with
          doc := P.applyChange s.doc c
          changes := s.changes ++ [c]
          version := s.version + 1 },
        (sid, [Payload.str "commitDone", Payload.num (s.version + 1)]) ::
          (collaborators s sid).map
            (fun t => (t, [Payload.str "update", Payload.chg c, Payload.num (s.version + 1)]))) := by
  simp only [step]
  rw [if_pos h]
  rfl

/-- Witness for C5 at a concrete input: two connected sessions, session 1
commits change `5` at version 1. -/
theorem C5_fast_path_witness :
    (⟨1, [], 0, [1, 2]⟩ : HubState Nat Nat).version = 1 ∧
    step P1 ⟨1, [], 0, [1, 2]⟩ (HubEvent.commit 1 5 1) =
      (⟨2, [5], 5, [1, 2]⟩,
        [(1, [Payload.str "commitDone", Payload.num 2]),
         (2, [Payload.str "update", Payload.chg 5, Payload.num 2])]) :=
  ⟨rfl, by rw [C5_fast_path P1 ⟨1, [], 0, [1, 2]⟩ 1 5 1 rfl]; rfl⟩

/--
C5 (counterexample): at that concrete input the update message actually
broadcast is `['update', change, newVersion]`, not the
`['update', newVersion, change]` the claim states.
-/
theorem C5_fast_path_counterexample :
    (step P1 ⟨1, [], 0, [1, 2]⟩ (HubEvent.commit 1 5 1)).2 =
      [(1, [Payload.str "commitDone", Payload.num 2]),
       (2, [Payload.str "update", Payload.chg 5, Payload.num 2])] ∧
    [Payload.str "update", Payload.chg (5 : Nat), Payload.num 2] ≠
      [Payload.str "update", Payload.num 2, Payload.chg 5] := by
  decide

/--
C3 (failing input): hub at version 2 with log `[10]` and sessions 1 and 2;
session 1 commits change `20` claiming version 1.  For every document-apply
function and every batch-transform function: the missed changes are
computed from the hub's own version, so nothing is rebased (the appended
change is the untransformed `20`), and the message sent to the committer is
the bare `['commitDone']` — no new version, no rebased change, no catch-up
changes.
-/
theorem C3_rebase_path_bug (ap : Nat → Nat → Nat) (tf : Nat → Nat → Nat × Nat) :
    step ⟨ap, tf⟩ (⟨2, [10], 0, [1, 2]⟩ : HubState Nat Nat) (HubEvent.commit 1 20 1) =
      (⟨3, [10, 20], ap 0 20, [1, 2]⟩,
       [(2, [Payload.str "update", Payload.num 3, Payload.chg 20]),
        (1, [Payload.str "commitDone"])]) := by
  simp only [step]
  rw [if_neg (by decide)]
  rfl

/-- The hub log/version invariant: `version == 1 + len(changes)`. -/
def Inv {C D : Type} (s : HubState C D) : Prop :=
  s.version = 1 + s.changes.length

/-- Every serialized step preserves the invariant, never decreases the
version, and only ever appends to the change log. -/
theorem step_inv {C D : Type} (P : HubParams C D) (s : HubState C D)
    (e : HubEvent C) (h : Inv s) :
    Inv (step P s e).1 ∧ s.version ≤ (step P s e).1.version ∧
      ∃ t : List C, s.changes ++ t = (step P s e).1.changes := by
  cases e with
  | connect sid => exact ⟨h, le_refl _, [], by simp [step]⟩
  | openDoc sid docId v => exact ⟨h, le_refl _, [], by simp [step]⟩
  | close sid => exact ⟨h, le_refl _, [], by simp [step]⟩
  | commit sid c v =>
    by_cases hv : s.version = v
    · simp only [step, if_pos hv]
      refine ⟨?_, Nat.le_succ _, [c], rfl⟩
      show s.version + 1 = 1 + (s.changes ++ [c]).length
      rw [h, List.length_append, List.length_singleton]
      omega
    · simp only [step, if_neg hv]
      have hlen : s.changes.length ≤ s.version - 1 := by rw [h]; omega
      have htake : (getChangesSinceVersion s.changes s.version).2 = s.changes :=
        List.take_of_length_le hlen
      refine ⟨?_, Nat.le_succ _, ?_⟩
      · show s.version + 1 = 1 + ((getChangesSinceVersion s.changes s.version).2 ++
          [(rebaseLoop P (getChangesSinceVersion s.changes s.version).1 c).2]).length
        rw [htake, h, List.length_append, List.length_singleton]
        omega
      · refine ⟨[(rebaseLoop P (getChangesSinceVersion s.changes s.version).1 c).2], ?_⟩
        show s.changes ++ _ = (getChangesSinceVersion s.changes s.version).2 ++ _
        rw [htake]

/-- The invariant holds along every run from an invariant state. -/
theorem run_inv {C D : Type} (P : HubParams C D) (evs : List (HubEvent C)) :
    ∀ s : HubState C D, Inv s → Inv (run P s evs) := by
  induction evs with
  | nil => exact fun s h => h
  | cons e es ih => exact fun s h => ih _ (step_inv P s e h).1

/--
C4: after any sequence of completed message handlings from the initial hub
state, `version == 1 + len(changes)` holds; and any further step from such
a reachable state can only increase the version and only append to the
change log (never remove a committed change).
-/
theorem C4_hub_log_version_invariant {C D : Type} (P : HubParams C D)
    (d0 : D) (evs : List (HubEvent C)) :
    (run P (init d0) evs).version = 1 + (run P (init d0) evs).changes.length ∧
    ∀ e : HubEvent C,
      (run P (init d0) evs).version ≤ (step P (run P (init d0) evs) e).1.version ∧
      ∃ t : List C,
        (run P (init d0) evs).changes ++ t = (step P (run P (init d0) evs) e).1.changes := by
  have h0 : Inv (init (C := C) d0) := rfl
  have hr : Inv (run P (init d0) evs) := run_inv P evs _ h0
  exact ⟨hr, fun e => ⟨(step_inv P _ e hr).2.1, (step_inv P _ e hr).2.2⟩⟩

end Hub

end Substance
